import Mathlib

/-!
Verification of the lap-pointer ring buffer in `src/lap_ptr_rb.h`.

The C code stores two monotonically increasing `size_t` positions together
with a power-of-two capacity; `rb_get_state` derives the complete occupancy
picture (indices, full/empty flags, used/free byte counts and the contiguous
run sizes) from the two raw positions alone, and
`rb_advance_write_unsafe`/`rb_advance_read_unsafe` unconditionally add a
count to the corresponding position.

The embedding below is parameterised by `W`, the bit width of `size_t`:
positions are natural numbers below `2 ^ W` and every C `size_t` operation
is modelled with its wrap-around semantics made explicit (`% 2 ^ W`).
-/

namespace LapPtrRb

/-- C unsigned subtraction `a - b` on a `W`-bit unsigned type: the result is
`(a - b) mod 2^W`, relying on the unsigned wrap-around the source code
documents with "rely on uint negative wrap-around". -/
def usub (W a b : Nat) : Nat := (a + (2 ^ W - b % 2 ^ W)) % 2 ^ W

/-- `lap_ptr_rb_header_t`: the persistent descriptor.  `_rd_ptr` and
`_wr_ptr` are the monotonic positions (C type `volatile size_t`), `size` is
the capacity (must equal `2^N` with `N + 1 ≤ W`, per the header comment),
and `buffer` models the flexible array member `uint8_t buffer[]`. -/
structure lap_ptr_rb_header_t where
  _rd_ptr : Nat
  _wr_ptr : Nat
  size : Nat
  buffer : List Nat
deriving Repr, DecidableEq

/-- `lap_ptr_rb_state_t`: the snapshot computed by `rb_get_state`
(the `DBG_LAP_PTR_RB` debug fields are compiled out in the source default
configuration and are not modelled). -/
structure lap_ptr_rb_state_t where
  rd_idx : Nat
  wr_idx : Nat
  full : Bool
  empty : Bool
  used_size : Nat
  free_size : Nat
  contiguous_used_size : Nat
  contiguous_free_size : Nat
deriving Repr, DecidableEq

/-- `rb_get_state`: literal translation of the snapshot calculation.
All intermediate values are `size_t`, so each C subtraction is `usub` and
each `&`/`|`/`^` is the corresponding bitwise operation on naturals (the
operands are below `2 ^ W`, so truncation never changes them). -/
def rb_get_state (W : Nat) (rb : lap_ptr_rb_header_t) : lap_ptr_rb_state_t :=
  let rd_ptr := rb._rd_ptr
  let wr_ptr := rb._wr_ptr
  let size := rb.size
  let idx_mask := usub W size 1
  let wr_idx := wr_ptr &&& idx_mask
  let rd_idx := rd_ptr &&& idx_mask
  let ptr_xor_mask := (size ||| idx_mask) &&& (rd_ptr ^^^ wr_ptr)
  let full := size == ptr_xor_mask
  let empty := 0 == ptr_xor_mask
  { wr_idx := wr_idx
    rd_idx := rd_idx
    full := full
    empty := empty
    free_size := if empty then size else usub W rd_idx wr_idx &&& idx_mask
    used_size := if full then size else usub W wr_idx rd_idx &&& idx_mask
    contiguous_free_size :=
      if full then 0
      else if wr_idx ≥ rd_idx then usub W size wr_idx else usub W rd_idx wr_idx
    contiguous_used_size :=
      if empty then 0
      else if wr_idx ≤ rd_idx then usub W size rd_idx else usub W wr_idx rd_idx }

/-- Models a call `rb_get_state(&rb, &st0)` at the memory level: the function
only loads from the descriptor (it copies `*rb_in` into a local) and stores
every field of the out-parameter `*state`, so the descriptor cell is returned
unchanged and every field of the prior out-struct contents `st0` is
overwritten. -/
def rb_get_state_call (W : Nat) (rb : lap_ptr_rb_header_t)
    (st0 : lap_ptr_rb_state_t) : lap_ptr_rb_header_t × lap_ptr_rb_state_t :=
  (rb,
    { st0 with
      rd_idx := (rb_get_state W rb).rd_idx
      wr_idx := (rb_get_state W rb).wr_idx
      full := (rb_get_state W rb).full
      empty := (rb_get_state W rb).empty
      used_size := (rb_get_state W rb).used_size
      free_size := (rb_get_state W rb).free_size
      contiguous_used_size := (rb_get_state W rb).contiguous_used_size
      contiguous_free_size := (rb_get_state W rb).contiguous_free_size })

/-- `rb_advance_write_unsafe`: `rb->_wr_ptr += n;` — unchecked `size_t`
addition, wrapping at `2 ^ W`; nothing else is touched. -/
def rb_advance_write_unsafe (W : Nat) (rb : lap_ptr_rb_header_t) (n : Nat) :
    lap_ptr_rb_header_t :=
  { rb with _wr_ptr := (rb._wr_ptr + n) % 2 ^ W }

/-- `rb_advance_read_unsafe`: `rb->_rd_ptr += n;` — unchecked `size_t`
addition, wrapping at `2 ^ W`; nothing else is touched. -/
def rb_advance_read_unsafe (W : Nat) (rb : lap_ptr_rb_header_t) (n : Nat) :
    lap_ptr_rb_header_t :=
  { rb with _rd_ptr := (rb._rd_ptr + n) % 2 ^ W }

/-- States reachable from the initial descriptor (both positions `0`,
capacity `2 ^ N`, storage `buf`) by advance calls that respect the
snapshot-reported free and used limits — the caller discipline the header
comment demands for the `_unsafe` primitives. -/
inductive Reachable (W N : Nat) (buf : List Nat) : lap_ptr_rb_header_t → Prop where
  | init : Reachable W N buf ⟨0, 0, 2 ^ N, buf⟩
  | advWrite (rb : lap_ptr_rb_header_t) (n : Nat) (hrb : Reachable W N buf rb)
      (hn : n ≤ (rb_get_state W rb).free_size) :
      Reachable W N buf ( rb_advance_write_unsafe W rb n)
  | advRead (rb : lap_ptr_rb_header_t) (n : Nat) (hrb : Reachable W N buf rb)
      (hn : n ≤ (rb_get_state W rb).used_size) :
      Reachable W N buf ( rb_advance_read_unsafe W rb n)

/-! ### Arithmetic facts about `usub`, the `W`-bit unsigned subtraction -/

lemma usub_lt (W a b : Nat) : usub W a b < 2 ^ W :=
  Nat.mod_lt _ (pow_pos (by norm_num) W)

lemma usub_eq_sub (W : Nat) {a b : Nat} (hba : b ≤ a) (ha : a < 2 ^ W) :
    usub W a b = a - b := by
  have hb : b < 2 ^ W := lt_of_le_of_lt hba ha
  unfold usub
  rw [Nat.mod_eq_of_lt hb]
  have e : a + (2 ^ W - b) = (a - b) + 2 ^ W := by omega
  rw [e, Nat.add_mod_right, Nat.mod_eq_of_lt (by omega)]

lemma usub_eq_wrap (W : Nat) {a b : Nat} (hab : a < b) (hb : b < 2 ^ W) :
    usub W a b = a + 2 ^ W - b := by
  unfold usub
  rw [Nat.mod_eq_of_lt hb, Nat.mod_eq_of_lt (by omega)]
  omega

lemma usub_add_left (W a b n : Nat) :
    usub W ((a + n) % 2 ^ W) b = (usub W a b + n) % 2 ^ W := by
  unfold usub
  rw [Nat.mod_add_mod, Nat.mod_add_mod]
  congr 1
  omega

lemma usub_add_right (W a b n : Nat) :
    usub W a ((b + n) % 2 ^ W) = usub W (usub W a b) n := by
  have hM : 0 < 2 ^ W := pow_pos (by norm_num) W
  have hp : b % 2 ^ W < 2 ^ W := Nat.mod_lt _ hM
  have hq : n % 2 ^ W < 2 ^ W := Nat.mod_lt _ hM
  unfold usub
  rw [Nat.mod_mod_of_dvd _ dvd_rfl, Nat.mod_add_mod, Nat.add_mod b n]
  rcases Nat.lt_or_ge (b % 2 ^ W + n % 2 ^ W) (2 ^ W) with h | h
  · rw [Nat.mod_eq_of_lt h]
    have e : a + (2 ^ W - b % 2 ^ W) + (2 ^ W - n % 2 ^ W)
        = (a + (2 ^ W - (b % 2 ^ W + n % 2 ^ W))) + 2 ^ W := by omega
    rw [e, Nat.add_mod_right]
  · have h2 : (b % 2 ^ W + n % 2 ^ W) % 2 ^ W
        = b % 2 ^ W + n % 2 ^ W - 2 ^ W := by
      rw [Nat.mod_eq_sub_mod h]
      exact Nat.mod_eq_of_lt (by omega)
    rw [h2]
    congr 1
    omega

lemma add_usub_cancel (W : Nat) {a b : Nat} (ha : a < 2 ^ W) (hb : b < 2 ^ W) :
    (b + usub W a b) % 2 ^ W = a := by
  unfold usub
  rw [Nat.add_mod_mod, Nat.mod_eq_of_lt hb]
  have e : b + (a + (2 ^ W - b)) = a + 2 ^ W := by omega
  rw [e, Nat.add_mod_right, Nat.mod_eq_of_lt ha]

lemma usub_small (W N : Nat) {x y : Nat} (hNW : N ≤ W) (hx : x < 2 ^ N)
    (hy : y < 2 ^ N) :
    usub W x y % 2 ^ N = if y ≤ x then x - y else x + 2 ^ N - y := by
  have hle : (2 : Nat) ^ N ≤ 2 ^ W := Nat.pow_le_pow_right (by norm_num) hNW
  have hpos : 0 < (2 : Nat) ^ N := pow_pos (by norm_num) N
  have hWpos : 0 < (2 : Nat) ^ W := pow_pos (by norm_num) W
  have hyW : y < 2 ^ W := lt_of_lt_of_le hy hle
  have hxW : x < 2 ^ W := lt_of_lt_of_le hx hle
  obtain ⟨K, hK⟩ : (2 : Nat) ^ N ∣ 2 ^ W := pow_dvd_pow 2 hNW
  obtain ⟨k, rfl⟩ : ∃ k, K = k + 1 := by
    refine ⟨K - 1, ?_⟩
    have hK0 : K ≠ 0 := by rintro rfl; rw [Nat.mul_zero] at hK; omega
    omega
  rw [Nat.mul_succ] at hK
  rcases le_or_lt y x with h | h
  · rw [if_pos h, usub_eq_sub W h hxW]
    exact Nat.mod_eq_of_lt (by omega)
  · rw [if_neg (by omega), usub_eq_wrap W h hyW]
    have e : x + 2 ^ W - y = (x + 2 ^ N - y) + 2 ^ N * k := by omega
    rw [e, Nat.add_mul_mod_self_left]
    exact Nat.mod_eq_of_lt (by omega)

/-! ### Bit-level facts about the lap mask -/

lemma or_two_pow_sub_one (n : Nat) : 2 ^ n ||| (2 ^ n - 1) = 2 ^ (n + 1) - 1 := by
  apply Nat.eq_of_testBit_eq
  intro i
  rw [Nat.testBit_or, Nat.testBit_two_pow, Nat.testBit_two_pow_sub_one,
    Nat.testBit_two_pow_sub_one, ← Bool.decide_or]
  exact decide_eq_decide.mpr (by omega)

lemma xor_mod_two_pow (a b n : Nat) :
    (a ^^^ b) % 2 ^ n = a % 2 ^ n ^^^ b % 2 ^ n := by
  rw [← Nat.and_pow_two_sub_one_eq_mod (a ^^^ b), Nat.and_xor_distrib_right,
    Nat.and_pow_two_sub_one_eq_mod, Nat.and_pow_two_sub_one_eq_mod]

lemma xor_two_pow_lt {k a : Nat} (ha : a < 2 ^ k) : a ^^^ 2 ^ k = a + 2 ^ k := by
  apply Nat.eq_of_testBit_eq
  intro i
  rw [Nat.add_comm a (2 ^ k), Nat.testBit_xor]
  rcases Nat.lt_trichotomy i k with h | rfl | h
  · rw [Nat.testBit_two_pow_of_ne (by omega), Nat.testBit_two_pow_add_gt h]
    simp
  · rw [Nat.testBit_two_pow_self, Nat.testBit_two_pow_add_eq,
      Nat.testBit_lt_two_pow ha]
    simp
  · have h2 : (2 : Nat) ^ (k + 1) ≤ 2 ^ i := Nat.pow_le_pow_right (by norm_num) h
    have hs : (2 : Nat) ^ (k + 1) = 2 ^ k * 2 := pow_succ 2 k
    rw [Nat.testBit_two_pow_of_ne (by omega : k ≠ i),
      Nat.testBit_lt_two_pow (show a < 2 ^ i by omega),
      Nat.testBit_lt_two_pow (show 2 ^ k + a < 2 ^ i by omega)]
    simp

lemma xor_two_pow_ge {k a : Nat} (h1 : 2 ^ k ≤ a) (h2 : a < 2 ^ (k + 1)) :
    a ^^^ 2 ^ k = a - 2 ^ k := by
  have hs : (2 : Nat) ^ (k + 1) = 2 ^ k * 2 := pow_succ 2 k
  have hb : a - 2 ^ k < 2 ^ k := by omega
  have h3 := xor_two_pow_lt hb
  have h4 : (a - 2 ^ k) + 2 ^ k = a := by omega
  rw [h4] at h3
  calc a ^^^ 2 ^ k = ((a - 2 ^ k) ^^^ 2 ^ k) ^^^ 2 ^ k := by rw [h3]
    _ = a - 2 ^ k := Nat.xor_cancel_right _ _

lemma lap_mask_empty {k a d : Nat} (ha : a < 2 ^ (k + 1)) (hd : d ≤ 2 ^ k) :
    (a ^^^ (a + d) % 2 ^ (k + 1) = 0) ↔ d = 0 := by
  have hs : (2 : Nat) ^ (k + 1) = 2 ^ k * 2 := pow_succ 2 k
  have hpos : 0 < (2 : Nat) ^ k := pow_pos (by norm_num) k
  rw [Nat.xor_eq_zero]
  rcases Nat.lt_or_ge (a + d) (2 ^ (k + 1)) with h | h
  · rw [Nat.mod_eq_of_lt h]; omega
  · rw [Nat.mod_eq_sub_mod h, Nat.mod_eq_of_lt (by omega)]; omega

lemma lap_mask_full {k a d : Nat} (ha : a < 2 ^ (k + 1)) (hd : d ≤ 2 ^ k) :
    (a ^^^ (a + d) % 2 ^ (k + 1) = 2 ^ k) ↔ d = 2 ^ k := by
  have hs : (2 : Nat) ^ (k + 1) = 2 ^ k * 2 := pow_succ 2 k
  have hpos : 0 < (2 : Nat) ^ k := pow_pos (by norm_num) k
  have key : ∀ x : Nat, (a ^^^ x = 2 ^ k) ↔ x = a ^^^ 2 ^ k := by
    intro x
    constructor
    · intro hx; rw [← hx, Nat.xor_cancel_left]
    · intro hx; rw [hx, ← Nat.xor_assoc, Nat.xor_self, Nat.zero_xor]
  rw [key]
  rcases Nat.lt_or_ge a (2 ^ k) with hak | hak
  · rw [xor_two_pow_lt hak]
    rcases Nat.lt_or_ge (a + d) (2 ^ (k + 1)) with h | h
    · rw [Nat.mod_eq_of_lt h]; omega
    · rw [Nat.mod_eq_sub_mod h, Nat.mod_eq_of_lt (by omega)]; omega
  · rw [xor_two_pow_ge hak ha]
    rcases Nat.lt_or_ge (a + d) (2 ^ (k + 1)) with h | h
    · rw [Nat.mod_eq_of_lt h]; omega
    · rw [Nat.mod_eq_sub_mod h, Nat.mod_eq_of_lt (by omega)]; omega

/-! ### Characterisation of `rb_get_state` -/

lemma idx_mask_eq {W N : Nat} (hNW : N + 1 ≤ W) : usub W (2 ^ N) 1 = 2 ^ N - 1 := by
  have hlt : (2 : Nat) ^ N < 2 ^ W := Nat.pow_lt_pow_right (by norm_num) (by omega)
  exact usub_eq_sub W Nat.one_le_two_pow hlt

lemma ptr_xor_mask_eq {W N : Nat} (hNW : N + 1 ≤ W) (rd wr : Nat) :
    (2 ^ N ||| usub W (2 ^ N) 1) &&& (rd ^^^ wr)
      = rd % 2 ^ (N + 1) ^^^ wr % 2 ^ (N + 1) := by
  rw [idx_mask_eq hNW, or_two_pow_sub_one, Nat.and_comm,
    Nat.and_pow_two_sub_one_eq_mod, xor_mod_two_pow]

/-- Under the caller invariant (`(wr - rd) mod 2^W ≤ capacity`), the
`ptr_xor_mask` of `rb_get_state` equals the capacity exactly when the ring is
one full lap apart, and `0` exactly when the positions coincide. -/
lemma mask_full_empty {W N : Nat} (hNW : N + 1 ≤ W) {rd wr : Nat}
    (hrd : rd < 2 ^ W) (hwr : wr < 2 ^ W) (hd : usub W wr rd ≤ 2 ^ N) :
    ((2 ^ N ||| usub W (2 ^ N) 1) &&& (rd ^^^ wr) = 2 ^ N
      ↔ usub W wr rd = 2 ^ N) ∧
    ((2 ^ N ||| usub W (2 ^ N) 1) &&& (rd ^^^ wr) = 0
      ↔ usub W wr rd = 0) := by
  have hdvd : (2 : Nat) ^ (N + 1) ∣ 2 ^ W := pow_dvd_pow 2 hNW
  have ha : rd % 2 ^ (N + 1) < 2 ^ (N + 1) :=
    Nat.mod_lt _ (pow_pos (by norm_num) _)
  have hb : wr % 2 ^ (N + 1)
      = (rd % 2 ^ (N + 1) + usub W wr rd) % 2 ^ (N + 1) := by
    conv_lhs => rw [← add_usub_cancel W hwr hrd]
    rw [Nat.mod_mod_of_dvd _ hdvd, Nat.mod_add_mod]
  rw [ptr_xor_mask_eq hNW, hb]
  exact ⟨lap_mask_full ha hd, lap_mask_empty ha hd⟩

/-- Complete characterisation of the snapshot for a well-formed descriptor
respecting the caller invariant: writing `d` for the wrapped pointer distance
`(wr - rd) mod 2^W`, the indices are the positions modulo the capacity,
`full`/`empty` test `d` against capacity and `0`, `used = d`,
`free = capacity - d`, and the contiguous runs are clipped at the end of
storage. -/
lemma get_state_spec {W N : Nat} (rb : lap_ptr_rb_header_t) (hNW : N + 1 ≤ W)
    (hsize : rb.size = 2 ^ N) (hrd : rb._rd_ptr < 2 ^ W)
    (hwr : rb._wr_ptr < 2 ^ W) (hd : usub W rb._wr_ptr rb._rd_ptr ≤ 2 ^ N) :
    (rb_get_state W rb).rd_idx = rb._rd_ptr % 2 ^ N ∧
    (rb_get_state W rb).wr_idx = rb._wr_ptr % 2 ^ N ∧
    ((rb_get_state W rb).full = true ↔ usub W rb._wr_ptr rb._rd_ptr = 2 ^ N) ∧
    ((rb_get_state W rb).empty = true ↔ usub W rb._wr_ptr rb._rd_ptr = 0) ∧
    (rb_get_state W rb).used_size = usub W rb._wr_ptr rb._rd_ptr ∧
    (rb_get_state W rb).free_size = 2 ^ N - usub W rb._wr_ptr rb._rd_ptr ∧
    (rb_get_state W rb).contiguous_used_size
      = min (usub W rb._wr_ptr rb._rd_ptr) (2 ^ N - rb._rd_ptr % 2 ^ N) ∧
    (rb_get_state W rb).contiguous_free_size
      = min (2 ^ N - usub W rb._wr_ptr rb._rd_ptr)
          (2 ^ N - rb._wr_ptr % 2 ^ N) := by
  have hpos : 0 < (2 : Nat) ^ N := pow_pos (by norm_num) N
  have hlt : (2 : Nat) ^ N < 2 ^ W := Nat.pow_lt_pow_right (by norm_num) (by omega)
  have hdvdN : (2 : Nat) ^ N ∣ 2 ^ W := pow_dvd_pow 2 (by omega)
  have hfe := mask_full_empty (N := N) hNW hrd hwr hd
  rw [idx_mask_eq hNW] at hfe
  have hrd_idx : rb._rd_ptr % 2 ^ N < 2 ^ N := Nat.mod_lt _ hpos
  have hwr_idx : rb._wr_ptr % 2 ^ N < 2 ^ N := Nat.mod_lt _ hpos
  have hwr_eq : rb._wr_ptr % 2 ^ N
      = (rb._rd_ptr % 2 ^ N + usub W rb._wr_ptr rb._rd_ptr) % 2 ^ N := by
    conv_lhs => rw [← add_usub_cancel W hwr hrd]
    rw [Nat.mod_mod_of_dvd _ hdvdN, Nat.mod_add_mod]
  have hsplit : rb._wr_ptr % 2 ^ N
        = rb._rd_ptr % 2 ^ N + usub W rb._wr_ptr rb._rd_ptr
      ∨ rb._wr_ptr % 2 ^ N + 2 ^ N
        = rb._rd_ptr % 2 ^ N + usub W rb._wr_ptr rb._rd_ptr := by
    rcases Nat.lt_or_ge
        (rb._rd_ptr % 2 ^ N + usub W rb._wr_ptr rb._rd_ptr) (2 ^ N) with h | h
    · left; rw [hwr_eq, Nat.mod_eq_of_lt h]
    · right; rw [hwr_eq, Nat.mod_eq_sub_mod h, Nat.mod_eq_of_lt (by omega)]
      omega
  simp only [rb_get_state, hsize, idx_mask_eq hNW,
    Nat.and_pow_two_sub_one_eq_mod]
  refine ⟨by trivial, by trivial, ?_, ?_, ?_, ?_, ?_, ?_⟩
  · rw [beq_iff_eq]
    exact eq_comm.trans hfe.1
  · rw [beq_iff_eq]
    exact eq_comm.trans hfe.2
  · rw [usub_small W N (by omega) hwr_idx hrd_idx]
    split
    · next h => exact (hfe.1.mp (beq_iff_eq.mp h).symm).symm
    · next h =>
      have hne : usub W rb._wr_ptr rb._rd_ptr ≠ 2 ^ N := fun hc =>
        h (by rw [beq_iff_eq]; exact (hfe.1.mpr hc).symm)
      rcases hsplit with hs | hs <;> split <;> omega
  · rw [usub_small W N (by omega) hrd_idx hwr_idx]
    split
    · next h =>
      have hd0 : usub W rb._wr_ptr rb._rd_ptr = 0 :=
        hfe.2.mp (beq_iff_eq.mp h).symm
      omega
    · next h =>
      have hne : usub W rb._wr_ptr rb._rd_ptr ≠ 0 := fun hc =>
        h (by rw [beq_iff_eq]; exact (hfe.2.mpr hc).symm)
      rcases hsplit with hs | hs <;> split <;> omega
  · split
    · next h =>
      have hd0 : usub W rb._wr_ptr rb._rd_ptr = 0 :=
        hfe.2.mp (beq_iff_eq.mp h).symm
      omega
    · next h =>
      have hne : usub W rb._wr_ptr rb._rd_ptr ≠ 0 := fun hc =>
        h (by rw [beq_iff_eq]; exact (hfe.2.mpr hc).symm)
      split
      · next h2 =>
        rw [usub_eq_sub W (le_of_lt hrd_idx) hlt]
        rcases hsplit with hs | hs <;> omega
      · next h2 =>
        rw [usub_eq_sub W (by omega) (lt_trans hwr_idx hlt)]
        rcases hsplit with hs | hs <;> omega
  · split
    · next h =>
      have hdN : usub W rb._wr_ptr rb._rd_ptr = 2 ^ N :=
        hfe.1.mp (beq_iff_eq.mp h).symm
      omega
    · next h =>
      have hne : usub W rb._wr_ptr rb._rd_ptr ≠ 2 ^ N := fun hc =>
        h (by rw [beq_iff_eq]; exact (hfe.1.mpr hc).symm)
      split
      · next h2 =>
        rw [usub_eq_sub W (le_of_lt hwr_idx) hlt]
        rcases hsplit with hs | hs <;> omega
      · next h2 =>
        rw [usub_eq_sub W (by omega) (lt_trans hrd_idx hlt)]
        rcases hsplit with hs | hs <;> omega

/-- Every reachable descriptor is well-formed: the capacity and storage are
those fixed at construction, the positions fit in `size_t`, and the wrapped
pointer distance never exceeds the capacity (the producer is never more than
one lap ahead). -/
lemma reachable_inv {W N : Nat} {buf : List Nat} {rb : lap_ptr_rb_header_t}
    (hNW : N + 1 ≤ W) (h : Reachable W N buf rb) :
    rb.size = 2 ^ N ∧ rb.buffer = buf ∧ rb._rd_ptr < 2 ^ W ∧
    rb._wr_ptr < 2 ^ W ∧ usub W rb._wr_ptr rb._rd_ptr ≤ 2 ^ N := by
  have hpos : 0 < (2 : Nat) ^ W := pow_pos (by norm_num) W
  have hlt : (2 : Nat) ^ N < 2 ^ W := Nat.pow_lt_pow_right (by norm_num) (by omega)
  induction h with
  | init =>
    refine ⟨rfl, rfl, hpos, hpos, ?_⟩
    unfold usub
    simp
  | advWrite rb n hrb hn ih =>
    obtain ⟨hs, hb, hrd, hwr, hd⟩ := ih
    have hfree : (rb_get_state W rb).free_size
        = 2 ^ N - usub W rb._wr_ptr rb._rd_ptr :=
      (get_state_spec rb hNW hs hrd hwr hd).2.2.2.2.2.1
    rw [hfree] at hn
    refine ⟨hs, hb, hrd, Nat.mod_lt _ hpos, ?_⟩
    show usub W ((rb._wr_ptr + n) % 2 ^ W) rb._rd_ptr ≤ 2 ^ N
    rw [usub_add_left, Nat.mod_eq_of_lt (by omega)]
    omega
  | advRead rb n hrb hn ih =>
    obtain ⟨hs, hb, hrd, hwr, hd⟩ := ih
    have hused : (rb_get_state W rb).used_size = usub W rb._wr_ptr rb._rd_ptr :=
      (get_state_spec rb hNW hs hrd hwr hd).2.2.2.2.1
    rw [hused] at hn
    refine ⟨hs, hb, Nat.mod_lt _ hpos, hwr, ?_⟩
    show usub W rb._wr_ptr ((rb._rd_ptr + n) % 2 ^ W) ≤ 2 ^ N
    rw [usub_add_right, usub_eq_sub W hn (lt_of_le_of_lt hd hlt)]
    omega

/-! ### Claim theorems -/

/-- C1: for every descriptor with power-of-two capacity (and at least one
spare lap bit, as the header comment requires), the snapshot's `full` and
`empty` flags are never both true; when the wrapped indices differ both are
false; when they coincide exactly one holds; and the flags are determined by
the lap mask `(capacity | idx_mask) & (rd_ptr ^ wr_ptr)`: `full` iff the mask
equals the capacity, `empty` iff it equals `0`. -/
theorem c1_full_empty_flags (W N : Nat) (rb : lap_ptr_rb_header_t)
    (hNW : N + 1 ≤ W) (hsize : rb.size = 2 ^ N) :
    ¬((rb_get_state W rb).full = true ∧ (rb_get_state W rb).empty = true) ∧
    ((rb_get_state W rb).wr_idx ≠ (rb_get_state W rb).rd_idx →
      (rb_get_state W rb).full = false ∧ (rb_get_state W rb).empty = false) ∧
    ((rb_get_state W rb).wr_idx = (rb_get_state W rb).rd_idx →
      ((rb_get_state W rb).full = true ↔ ¬((rb_get_state W rb).empty = true))) ∧
    ((rb_get_state W rb).full = true ↔
      (rb.size ||| (rb.size - 1)) &&& (rb._rd_ptr ^^^ rb._wr_ptr) = rb.size) ∧
    ((rb_get_state W rb).empty = true ↔
      (rb.size ||| (rb.size - 1)) &&& (rb._rd_ptr ^^^ rb._wr_ptr) = 0) := by
  have hpos : 0 < (2 : Nat) ^ N := pow_pos (by norm_num) N
  have hs2 : (2 : Nat) ^ (N + 1) = 2 ^ N * 2 := pow_succ 2 N
  have hmask := ptr_xor_mask_eq hNW rb._rd_ptr rb._wr_ptr
  rw [idx_mask_eq hNW] at hmask
  have hXlt : rb._rd_ptr % 2 ^ (N + 1) ^^^ rb._wr_ptr % 2 ^ (N + 1) < 2 ^ (N + 1) :=
    Nat.xor_lt_two_pow (Nat.mod_lt _ (pow_pos (by norm_num) _))
      (Nat.mod_lt _ (pow_pos (by norm_num) _))
  have hXmod : (rb._rd_ptr % 2 ^ (N + 1) ^^^ rb._wr_ptr % 2 ^ (N + 1)) % 2 ^ N
      = rb._rd_ptr % 2 ^ N ^^^ rb._wr_ptr % 2 ^ N := by
    rw [xor_mod_two_pow, Nat.mod_mod_of_dvd _ (pow_dvd_pow 2 (Nat.le_succ N)),
      Nat.mod_mod_of_dvd _ (pow_dvd_pow 2 (Nat.le_succ N))]
  simp only [rb_get_state, hsize, idx_mask_eq hNW,
    Nat.and_pow_two_sub_one_eq_mod]
  rw [hmask]
  set X := rb._rd_ptr % 2 ^ (N + 1) ^^^ rb._wr_ptr % 2 ^ (N + 1) with hX
  refine ⟨?_, ?_, ?_, ?_, ?_⟩
  · rintro ⟨h1, h2⟩
    rw [beq_iff_eq] at h1 h2
    omega
  · intro hne
    have hne2 : X % 2 ^ N ≠ 0 := by
      rw [hXmod]
      intro hc
      exact hne (Nat.xor_eq_zero.mp hc).symm
    constructor
    · rw [beq_eq_false_iff_ne]
      intro hc
      apply hne2
      rw [← hc]
      exact Nat.mod_self _
    · rw [beq_eq_false_iff_ne]
      intro hc
      apply hne2
      rw [← hc]
      exact Nat.zero_mod _
  · intro heq
    have h0 : X % 2 ^ N = 0 := by
      rw [hXmod, heq]
      exact Nat.xor_self _
    have hX01 : X = 0 ∨ X = 2 ^ N := by
      obtain ⟨q, hq⟩ := Nat.dvd_of_mod_eq_zero h0
      have hq2 : q < 2 := by
        by_contra hq2
        push_neg at hq2
        have hmul : 2 ^ N * 2 ≤ 2 ^ N * q := Nat.mul_le_mul_left _ hq2
        omega
      interval_cases q
      · left; omega
      · right; omega
    rw [beq_iff_eq, beq_iff_eq]
    rcases hX01 with h | h <;> rw [h] <;> omega
  · rw [beq_iff_eq]
    exact eq_comm
  · rw [beq_iff_eq]
    exact eq_comm

theorem c1_full_empty_flags_witness :
    (3 + 1 ≤ 8 ∧ (⟨5, 13, 8, []⟩ : lap_ptr_rb_header_t).size = 2 ^ 3) ∧
    (¬((rb_get_state 8 ⟨5, 13, 8, []⟩).full = true ∧
        (rb_get_state 8 ⟨5, 13, 8, []⟩).empty = true) ∧
    ((rb_get_state 8 ⟨5, 13, 8, []⟩).wr_idx ≠ (rb_get_state 8 ⟨5, 13, 8, []⟩).rd_idx →
      (rb_get_state 8 ⟨5, 13, 8, []⟩).full = false ∧
      (rb_get_state 8 ⟨5, 13, 8, []⟩).empty = false) ∧
    ((rb_get_state 8 ⟨5, 13, 8, []⟩).wr_idx = (rb_get_state 8 ⟨5, 13, 8, []⟩).rd_idx →
      ((rb_get_state 8 ⟨5, 13, 8, []⟩).full = true ↔
        ¬((rb_get_state 8 ⟨5, 13, 8, []⟩).empty = true))) ∧
    ((rb_get_state 8 ⟨5, 13, 8, []⟩).full = true ↔
      ((⟨5, 13, 8, []⟩ : lap_ptr_rb_header_t).size |||
          ((⟨5, 13, 8, []⟩ : lap_ptr_rb_header_t).size - 1)) &&&
        ((⟨5, 13, 8, []⟩ : lap_ptr_rb_header_t)._rd_ptr ^^^
          (⟨5, 13, 8, []⟩ : lap_ptr_rb_header_t)._wr_ptr)
        = (⟨5, 13, 8, []⟩ : lap_ptr_rb_header_t).size) ∧
    ((rb_get_state 8 ⟨5, 13, 8, []⟩).empty = true ↔
      ((⟨5, 13, 8, []⟩ : lap_ptr_rb_header_t).size |||
          ((⟨5, 13, 8, []⟩ : lap_ptr_rb_header_t).size - 1)) &&&
        ((⟨5, 13, 8, []⟩ : lap_ptr_rb_header_t)._rd_ptr ^^^
          (⟨5, 13, 8, []⟩ : lap_ptr_rb_header_t)._wr_ptr) = 0)) :=
  ⟨⟨by decide, by decide⟩,
    c1_full_empty_flags 8 3 ⟨5, 13, 8, []⟩ (by decide) (by decide)⟩

/-- C2: for every reachable state (any sequence of advances respecting the
snapshot-reported limits, from both positions `0`), the snapshot satisfies
`used_size + free_size = capacity`. -/
theorem c2_used_free_sum (W N : Nat) (buf : List Nat) (rb : lap_ptr_rb_header_t)
    (hNW : N + 1 ≤ W) (h : Reachable W N buf rb) :
    (rb_get_state W rb).used_size + (rb_get_state W rb).free_size = rb.size := by
  obtain ⟨hs, hb, hrd, hwr, hd⟩ := reachable_inv hNW h
  have hspec := get_state_spec rb hNW hs hrd hwr hd
  rw [hspec.2.2.2.2.1, hspec.2.2.2.2.2.1, hs]
  omega

theorem c2_used_free_sum_witness :
    (4 + 1 ≤ 16 ∧ 10 ≤ (rb_get_state 16 ⟨0, 0, 2 ^ 4, []⟩).free_size) ∧
    (rb_get_state 16 ( rb_advance_write_unsafe 16 ⟨0, 0, 2 ^ 4, []⟩ 10)).used_size
      + (rb_get_state 16 ( rb_advance_write_unsafe 16 ⟨0, 0, 2 ^ 4, []⟩ 10)).free_size
      = ( rb_advance_write_unsafe 16 ⟨0, 0, 2 ^ 4, []⟩ 10).size :=
  ⟨⟨by decide, by decide⟩,
    c2_used_free_sum 16 4 [] _ (by decide)
      (Reachable.advWrite _ 10 Reachable.init (by decide))⟩

/-- C3: from any reachable state, for any `n ≤ used_size` as reported by the
snapshot, `rb_advance_read_unsafe` decreases `used_size` by exactly `n`,
increases `free_size` by exactly `n`, and advances `rd_idx` by `n` modulo the
capacity. -/
theorem c3_advance_read (W N : Nat) (buf : List Nat) (rb : lap_ptr_rb_header_t)
    (n : Nat) (hNW : N + 1 ≤ W) (h : Reachable W N buf rb)
    (hn : n ≤ (rb_get_state W rb).used_size) :
    (rb_get_state W ( rb_advance_read_unsafe W rb n)).used_size
      = (rb_get_state W rb).used_size - n ∧
    (rb_get_state W ( rb_advance_read_unsafe W rb n)).free_size
      = (rb_get_state W rb).free_size + n ∧
    (rb_get_state W ( rb_advance_read_unsafe W rb n)).rd_idx
      = ((rb_get_state W rb).rd_idx + n) % rb.size := by
  obtain ⟨hs, hb, hrd, hwr, hd⟩ := reachable_inv hNW h
  have hlt : (2 : Nat) ^ N < 2 ^ W := Nat.pow_lt_pow_right (by norm_num) (by omega)
  have hspec := get_state_spec rb hNW hs hrd hwr hd
  rw [hspec.2.2.2.2.1] at hn
  set rb' := rb_advance_read_unsafe W rb n with hrb'
  have hrd' : rb'._rd_ptr = (rb._rd_ptr + n) % 2 ^ W := rfl
  have hwr' : rb'._wr_ptr = rb._wr_ptr := rfl
  have hs' : rb'.size = 2 ^ N := hs
  have hd' : usub W rb'._wr_ptr rb'._rd_ptr = usub W rb._wr_ptr rb._rd_ptr - n := by
    rw [hwr', hrd', usub_add_right, usub_eq_sub W hn (lt_of_le_of_lt hd hlt)]
  have hspec' := get_state_spec rb' hNW hs'
    (by rw [hrd']; exact Nat.mod_lt _ (pow_pos (by norm_num) W))
    (by rw [hwr']; exact hwr) (by rw [hd']; omega)
  refine ⟨?_, ?_, ?_⟩
  · rw [hspec'.2.2.2.2.1, hspec.2.2.2.2.1, hd']
  · rw [hspec'.2.2.2.2.2.1, hspec.2.2.2.2.2.1, hd']
    omega
  · rw [hspec'.1, hspec.1, hrd', hs,
      Nat.mod_mod_of_dvd _ (pow_dvd_pow 2 (by omega : N ≤ W)), Nat.mod_add_mod]

theorem c3_advance_read_witness :
    (4 + 1 ≤ 16 ∧ 10 ≤ (rb_get_state 16 ⟨0, 0, 2 ^ 4, []⟩).free_size ∧
      4 ≤ (rb_get_state 16 ( rb_advance_write_unsafe 16 ⟨0, 0, 2 ^ 4, []⟩ 10)).used_size) ∧
    ((rb_get_state 16 ( rb_advance_read_unsafe 16
        ( rb_advance_write_unsafe 16 ⟨0, 0, 2 ^ 4, []⟩ 10) 4)).used_size
      = (rb_get_state 16 ( rb_advance_write_unsafe 16 ⟨0, 0, 2 ^ 4, []⟩ 10)).used_size - 4 ∧
    (rb_get_state 16 ( rb_advance_read_unsafe 16
        ( rb_advance_write_unsafe 16 ⟨0, 0, 2 ^ 4, []⟩ 10) 4)).free_size
      = (rb_get_state 16 ( rb_advance_write_unsafe 16 ⟨0, 0, 2 ^ 4, []⟩ 10)).free_size + 4 ∧
    (rb_get_state 16 ( rb_advance_read_unsafe 16
        ( rb_advance_write_unsafe 16 ⟨0, 0, 2 ^ 4, []⟩ 10) 4)).rd_idx
      = ((rb_get_state 16 ( rb_advance_write_unsafe 16 ⟨0, 0, 2 ^ 4, []⟩ 10)).rd_idx + 4)
        % ( rb_advance_write_unsafe 16 ⟨0, 0, 2 ^ 4, []⟩ 10).size) :=
  ⟨⟨by decide, by decide, by decide⟩,
    c3_advance_read 16 4 [] _ 4 (by decide)
      (Reachable.advWrite _ 10 Reachable.init (by decide)) (by decide)⟩

/-- C4: spec scenario C at machine width 64 — capacity 8, from empty,
`advance_write(8)` (now full, `wr_idx = 0`) then `advance_read(5)` yields
`wr_idx = 0`, `rd_idx = 5`, `used_size = 3`, `free_size = 5`,
`contiguous_free_size = 5` and `contiguous_used_size = 3`. -/
theorem c4_wrap_boundary_scenario :
    (rb_get_state 64 ( rb_advance_read_unsafe 64
        ( rb_advance_write_unsafe 64 ⟨0, 0, 8, []⟩ 8) 5)).wr_idx = 0 ∧
    (rb_get_state 64 ( rb_advance_read_unsafe 64
        ( rb_advance_write_unsafe 64 ⟨0, 0, 8, []⟩ 8) 5)).rd_idx = 5 ∧
    (rb_get_state 64 ( rb_advance_read_unsafe 64
        ( rb_advance_write_unsafe 64 ⟨0, 0, 8, []⟩ 8) 5)).used_size = 3 ∧
    (rb_get_state 64 ( rb_advance_read_unsafe 64
        ( rb_advance_write_unsafe 64 ⟨0, 0, 8, []⟩ 8) 5)).free_size = 5 ∧
    (rb_get_state 64 ( rb_advance_read_unsafe 64
        ( rb_advance_write_unsafe 64 ⟨0, 0, 8, []⟩ 8) 5)).contiguous_free_size = 5 ∧
    (rb_get_state 64 ( rb_advance_read_unsafe 64
        ( rb_advance_write_unsafe 64 ⟨0, 0, 8, []⟩ 8) 5)).contiguous_used_size = 3 := by
  decide

/-- C5: for every reachable state, `contiguous_used_size ≤ used_size` and
`contiguous_free_size ≤ free_size`, with equality whenever the run starting
at the respective index reaches its full extent without wrapping past the
end of storage (`rd_idx + used_size ≤ capacity`, resp.
`wr_idx + free_size ≤ capacity`). -/
theorem c5_contiguous_bounds (W N : Nat) (buf : List Nat)
    (rb : lap_ptr_rb_header_t) (hNW : N + 1 ≤ W) (h : Reachable W N buf rb) :
    (rb_get_state W rb).contiguous_used_size ≤ (rb_get_state W rb).used_size ∧
    (rb_get_state W rb).contiguous_free_size ≤ (rb_get_state W rb).free_size ∧
    ((rb_get_state W rb).rd_idx + (rb_get_state W rb).used_size ≤ rb.size →
      (rb_get_state W rb).contiguous_used_size = (rb_get_state W rb).used_size) ∧
    ((rb_get_state W rb).wr_idx + (rb_get_state W rb).free_size ≤ rb.size →
      (rb_get_state W rb).contiguous_free_size = (rb_get_state W rb).free_size) := by
  obtain ⟨hs, hb, hrd, hwr, hd⟩ := reachable_inv hNW h
  obtain ⟨h1, h2, h3, h4, h5, h6, h7, h8⟩ := get_state_spec rb hNW hs hrd hwr hd
  rw [h1, h2, h5, h6, h7, h8, hs]
  have hpos : 0 < (2 : Nat) ^ N := pow_pos (by norm_num) N
  have hrd_idx : rb._rd_ptr % 2 ^ N < 2 ^ N := Nat.mod_lt _ hpos
  have hwr_idx : rb._wr_ptr % 2 ^ N < 2 ^ N := Nat.mod_lt _ hpos
  refine ⟨by omega, by omega, by omega, by omega⟩

theorem c5_contiguous_bounds_witness :
    (4 + 1 ≤ 16 ∧ 10 ≤ (rb_get_state 16 ⟨0, 0, 2 ^ 4, []⟩).free_size) ∧
    ((rb_get_state 16 ( rb_advance_write_unsafe 16 ⟨0, 0, 2 ^ 4, []⟩ 10)).contiguous_used_size
      ≤ (rb_get_state 16 ( rb_advance_write_unsafe 16 ⟨0, 0, 2 ^ 4, []⟩ 10)).used_size ∧
    (rb_get_state 16 ( rb_advance_write_unsafe 16 ⟨0, 0, 2 ^ 4, []⟩ 10)).contiguous_free_size
      ≤ (rb_get_state 16 ( rb_advance_write_unsafe 16 ⟨0, 0, 2 ^ 4, []⟩ 10)).free_size ∧
    ((rb_get_state 16 ( rb_advance_write_unsafe 16 ⟨0, 0, 2 ^ 4, []⟩ 10)).rd_idx
        + (rb_get_state 16 ( rb_advance_write_unsafe 16 ⟨0, 0, 2 ^ 4, []⟩ 10)).used_size
        ≤ ( rb_advance_write_unsafe 16 ⟨0, 0, 2 ^ 4, []⟩ 10).size →
      (rb_get_state 16 ( rb_advance_write_unsafe 16 ⟨0, 0, 2 ^ 4, []⟩ 10)).contiguous_used_size
        = (rb_get_state 16 ( rb_advance_write_unsafe 16 ⟨0, 0, 2 ^ 4, []⟩ 10)).used_size) ∧
    ((rb_get_state 16 ( rb_advance_write_unsafe 16 ⟨0, 0, 2 ^ 4, []⟩ 10)).wr_idx
        + (rb_get_state 16 ( rb_advance_write_unsafe 16 ⟨0, 0, 2 ^ 4, []⟩ 10)).free_size
        ≤ ( rb_advance_write_unsafe 16 ⟨0, 0, 2 ^ 4, []⟩ 10).size →
      (rb_get_state 16 ( rb_advance_write_unsafe 16 ⟨0, 0, 2 ^ 4, []⟩ 10)).contiguous_free_size
        = (rb_get_state 16 ( rb_advance_write_unsafe 16 ⟨0, 0, 2 ^ 4, []⟩ 10)).free_size)) :=
  ⟨⟨by decide, by decide⟩,
    c5_contiguous_bounds 16 4 [] _ (by decide)
      (Reachable.advWrite _ 10 Reachable.init (by decide))⟩

/-- C7: for every descriptor state and every count `n` — including counts
exceeding the available free or used space — the advance primitives
unconditionally add `n` to the corresponding position (wrapping at `2 ^ W`),
with no validation and no error indication, and leave the peer position, the
capacity and the storage contents unchanged. -/
theorem c7_advance_unchecked (W : Nat) (rb : lap_ptr_rb_header_t) (n : Nat) :
    ( rb_advance_write_unsafe W rb n)._wr_ptr = (rb._wr_ptr + n) % 2 ^ W ∧
    ( rb_advance_write_unsafe W rb n)._rd_ptr = rb._rd_ptr ∧
    ( rb_advance_write_unsafe W rb n).size = rb.size ∧
    ( rb_advance_write_unsafe W rb n).buffer = rb.buffer ∧
    ( rb_advance_read_unsafe W rb n)._rd_ptr = (rb._rd_ptr + n) % 2 ^ W ∧
    ( rb_advance_read_unsafe W rb n)._wr_ptr = rb._wr_ptr ∧
    ( rb_advance_read_unsafe W rb n).size = rb.size ∧
    ( rb_advance_read_unsafe W rb n).buffer = rb.buffer :=
  ⟨rfl, rfl, rfl, rfl, rfl, rfl, rfl, rfl⟩

/-- C8: the snapshot query has no side effect on the descriptor, and two
snapshot calls on the same descriptor with no intervening advance yield
identical results in every field (regardless of the prior contents of the
out-parameter struct). -/
theorem c8_snapshot_idempotent (W : Nat) (rb : lap_ptr_rb_header_t)
    (st0 st1 : lap_ptr_rb_state_t) :
    (rb_get_state_call W rb st0).1 = rb ∧
    (rb_get_state_call W (rb_get_state_call W rb st0).1 st1).1 = rb ∧
    (rb_get_state_call W rb st0).2
      = (rb_get_state_call W (rb_get_state_call W rb st0).1 st1).2 :=
  ⟨rfl, rfl, rfl⟩

/-- C10: for every descriptor with power-of-two capacity, the snapshot
satisfies `wr_idx + contiguous_free_size ≤ size` and
`rd_idx + contiguous_used_size ≤ size`, so accessing exactly the reported
contiguous number of bytes starting at the reported index never crosses the
end of the storage region. -/
theorem c10_contiguous_in_bounds (W N : Nat) (rb : lap_ptr_rb_header_t)
    (hNW : N + 1 ≤ W) (hsize : rb.size = 2 ^ N) :
    (rb_get_state W rb).wr_idx + (rb_get_state W rb).contiguous_free_size
      ≤ rb.size ∧
    (rb_get_state W rb).rd_idx + (rb_get_state W rb).contiguous_used_size
      ≤ rb.size := by
  have hpos : 0 < (2 : Nat) ^ N := pow_pos (by norm_num) N
  have hlt : (2 : Nat) ^ N < 2 ^ W := Nat.pow_lt_pow_right (by norm_num) (by omega)
  have hwr_idx : rb._wr_ptr % 2 ^ N < 2 ^ N := Nat.mod_lt _ hpos
  have hrd_idx : rb._rd_ptr % 2 ^ N < 2 ^ N := Nat.mod_lt _ hpos
  simp only [rb_get_state, hsize, idx_mask_eq hNW, Nat.and_pow_two_sub_one_eq_mod]
  constructor
  · split
    · omega
    · split
      · next h2 => rw [usub_eq_sub W (le_of_lt hwr_idx) hlt]; omega
      · next h2 => rw [usub_eq_sub W (by omega) (lt_trans hrd_idx hlt)]; omega
  · split
    · omega
    · split
      · next h2 => rw [usub_eq_sub W (le_of_lt hrd_idx) hlt]; omega
      · next h2 => rw [usub_eq_sub W (by omega) (lt_trans hwr_idx hlt)]; omega

theorem c10_contiguous_in_bounds_witness :
    (3 + 1 ≤ 8 ∧ (⟨5, 13, 8, []⟩ : lap_ptr_rb_header_t).size = 2 ^ 3) ∧
    ((rb_get_state 8 ⟨5, 13, 8, []⟩).wr_idx
        + (rb_get_state 8 ⟨5, 13, 8, []⟩).contiguous_free_size
        ≤ (⟨5, 13, 8, []⟩ : lap_ptr_rb_header_t).size ∧
      (rb_get_state 8 ⟨5, 13, 8, []⟩).rd_idx
        + (rb_get_state 8 ⟨5, 13, 8, []⟩).contiguous_used_size
        ≤ (⟨5, 13, 8, []⟩ : lap_ptr_rb_header_t).size) :=
  ⟨⟨by decide, by decide⟩,
    c10_contiguous_in_bounds 8 3 ⟨5, 13, 8, []⟩ (by decide) (by decide)⟩

/-- C6: position magnitude (lap count) never affects the reported state —
two descriptors whose positions agree modulo `2^(N+1)` snapshot identically —
and from any in-invariant positions (including ones just below `2 ^ W`), an
advance that wraps the write position at `2 ^ W` via unsigned overflow still
yields a snapshot with correct indices, full/empty flags and
used/free/contiguous sizes, all determined by the wrapped distance
`usub W wr rd + n`. -/
theorem c6_lap_and_overflow (W N : Nat) (buf : List Nat)
    (rd wr rd2 wr2 n : Nat) (hNW : N + 1 ≤ W) (hrd : rd < 2 ^ W)
    (hwr : wr < 2 ^ W) (hd : usub W wr rd ≤ 2 ^ N) :
    (rd % 2 ^ (N + 1) = rd2 % 2 ^ (N + 1) →
      wr % 2 ^ (N + 1) = wr2 % 2 ^ (N + 1) →
      rb_get_state W ⟨rd, wr, 2 ^ N, buf⟩ = rb_get_state W ⟨rd2, wr2, 2 ^ N, buf⟩) ∧
    (n ≤ (rb_get_state W ⟨rd, wr, 2 ^ N, buf⟩).free_size →
      (rb_get_state W ( rb_advance_write_unsafe W ⟨rd, wr, 2 ^ N, buf⟩ n)).used_size
        = usub W wr rd + n ∧
      (rb_get_state W ( rb_advance_write_unsafe W ⟨rd, wr, 2 ^ N, buf⟩ n)).free_size
        = 2 ^ N - (usub W wr rd + n) ∧
      ((rb_get_state W ( rb_advance_write_unsafe W ⟨rd, wr, 2 ^ N, buf⟩ n)).full = true
        ↔ usub W wr rd + n = 2 ^ N) ∧
      ((rb_get_state W ( rb_advance_write_unsafe W ⟨rd, wr, 2 ^ N, buf⟩ n)).empty = true
        ↔ usub W wr rd + n = 0) ∧
      (rb_get_state W ( rb_advance_write_unsafe W ⟨rd, wr, 2 ^ N, buf⟩ n)).wr_idx
        = (wr + n) % 2 ^ N ∧
      (rb_get_state W ( rb_advance_write_unsafe W ⟨rd, wr, 2 ^ N, buf⟩ n)).rd_idx
        = rd % 2 ^ N ∧
      (rb_get_state W ( rb_advance_write_unsafe W ⟨rd, wr, 2 ^ N, buf⟩ n)).contiguous_used_size
        = min (usub W wr rd + n) (2 ^ N - rd % 2 ^ N) ∧
      (rb_get_state W ( rb_advance_write_unsafe W ⟨rd, wr, 2 ^ N, buf⟩ n)).contiguous_free_size
        = min (2 ^ N - (usub W wr rd + n)) (2 ^ N - (wr + n) % 2 ^ N)) := by
  have hpos : 0 < (2 : Nat) ^ N := pow_pos (by norm_num) N
  have hlt : (2 : Nat) ^ N < 2 ^ W := Nat.pow_lt_pow_right (by norm_num) (by omega)
  have hdvd : (2 : Nat) ^ N ∣ 2 ^ (N + 1) := pow_dvd_pow 2 (Nat.le_succ N)
  have hdvdW : (2 : Nat) ^ N ∣ 2 ^ W := pow_dvd_pow 2 (by omega)
  constructor
  · intro hrw hww
    have hri : rd % 2 ^ N = rd2 % 2 ^ N := by
      rw [← Nat.mod_mod_of_dvd rd hdvd, hrw, Nat.mod_mod_of_dvd rd2 hdvd]
    have hwi : wr % 2 ^ N = wr2 % 2 ^ N := by
      rw [← Nat.mod_mod_of_dvd wr hdvd, hww, Nat.mod_mod_of_dvd wr2 hdvd]
    have pxm : ∀ r w : Nat, (2 ^ N ||| (2 ^ N - 1)) &&& (r ^^^ w)
        = r % 2 ^ (N + 1) ^^^ w % 2 ^ (N + 1) := by
      intro r w
      rw [← idx_mask_eq hNW, ptr_xor_mask_eq hNW]
    simp only [rb_get_state, idx_mask_eq hNW, Nat.and_pow_two_sub_one_eq_mod]
    rw [pxm rd wr, pxm rd2 wr2, hrw, hww, hri, hwi]
  · intro hn
    set rb0 : lap_ptr_rb_header_t := ⟨rd, wr, 2 ^ N, buf⟩ with hrb0
    have hspec0 := get_state_spec rb0 hNW rfl hrd hwr hd
    have hr0 : rb0._rd_ptr = rd := rfl
    have hw0 : rb0._wr_ptr = wr := rfl
    rw [hspec0.2.2.2.2.2.1, hr0, hw0] at hn
    set rb' := rb_advance_write_unsafe W rb0 n with hrb'
    have hrd' : rb'._rd_ptr = rd := rfl
    have hwr' : rb'._wr_ptr = (wr + n) % 2 ^ W := rfl
    have hs' : rb'.size = 2 ^ N := rfl
    have hd' : usub W rb'._wr_ptr rb'._rd_ptr = usub W wr rd + n := by
      rw [hwr', hrd']
      show usub W ((wr + n) % 2 ^ W) rd = usub W wr rd + n
      rw [usub_add_left, Nat.mod_eq_of_lt (by omega)]
    have hspec' := get_state_spec rb' hNW hs'
      (by rw [hrd']; exact hrd)
      (by rw [hwr']; exact Nat.mod_lt _ (pow_pos (by norm_num) W))
      (by rw [hd']; omega)
    obtain ⟨g1, g2, g3, g4, g5, g6, g7, g8⟩ := hspec'
    rw [hd'] at g3 g4 g5 g6 g7 g8
    rw [hrd'] at g1 g7
    rw [hwr'] at g2 g8
    rw [Nat.mod_mod_of_dvd _ hdvdW] at g2 g8
    exact ⟨g5, g6, g3, g4, g2, g1, g7, g8⟩

theorem c6_lap_and_overflow_witness :
    (3 + 1 ≤ 64 ∧ 2 ^ 64 - 4 < 2 ^ 64 ∧
      usub 64 (2 ^ 64 - 4) (2 ^ 64 - 4) ≤ 2 ^ 3 ∧
      (2 ^ 64 - 4) % 2 ^ 4 = 12 % 2 ^ 4 ∧
      8 ≤ (rb_get_state 64 ⟨2 ^ 64 - 4, 2 ^ 64 - 4, 2 ^ 3, []⟩).free_size) ∧
    rb_get_state 64 ⟨2 ^ 64 - 4, 2 ^ 64 - 4, 2 ^ 3, []⟩
      = rb_get_state 64 ⟨12, 12, 2 ^ 3, []⟩ ∧
    (rb_get_state 64 ( rb_advance_write_unsafe 64
        ⟨2 ^ 64 - 4, 2 ^ 64 - 4, 2 ^ 3, []⟩ 8)).used_size
      = usub 64 (2 ^ 64 - 4) (2 ^ 64 - 4) + 8 ∧
    ((rb_get_state 64 ( rb_advance_write_unsafe 64
        ⟨2 ^ 64 - 4, 2 ^ 64 - 4, 2 ^ 3, []⟩ 8)).full = true
      ↔ usub 64 (2 ^ 64 - 4) (2 ^ 64 - 4) + 8 = 2 ^ 3) :=
  ⟨⟨by decide, by decide, by decide, by decide, by decide⟩,
    (c6_lap_and_overflow 64 3 [] (2 ^ 64 - 4) (2 ^ 64 - 4) 12 12 8
        (by decide) (by decide) (by decide) (by decide)).1 (by decide) (by decide),
    ((c6_lap_and_overflow 64 3 [] (2 ^ 64 - 4) (2 ^ 64 - 4) 12 12 8
        (by decide) (by decide) (by decide) (by decide)).2 (by decide)).1,
    ((c6_lap_and_overflow 64 3 [] (2 ^ 64 - 4) (2 ^ 64 - 4) 12 12 8
        (by decide) (by decide) (by decide) (by decide)).2 (by decide)).2.2.1⟩

example : rb_get_state 16 ⟨0, 10, 16, []⟩ =
    ⟨0, 10, false, false, 10, 6, 10, 6⟩ := by decide

example : rb_get_state 16 ⟨0, 16, 16, []⟩ =
    ⟨0, 0, true, false, 16, 0, 16, 0⟩ := by decide

example : rb_get_state 16 ⟨5, 8 % 2 ^ 16, 8, []⟩ =
    ⟨5, 0, false, false, 3, 5, 3, 5⟩ := by decide

end LapPtrRb
